import Mathlib

/-!
Verification of the performance-analysis pipeline of the rust-audio-engine
(`src/rust-audio-engine/src/analyzer.rs`): YIN pitch detection, spectral-flux
onset detection and per-segment dynamics analysis.

Modelling conventions (shallow embedding):
* `f32`/`f64` arithmetic is embedded as exact rational arithmetic (`ℚ`).
* A Rust slice `&[f32]` is embedded as a `Buffer`: a length together with an
  index function `ℕ → ℚ` (reads beyond the source's bounds never influence a
  result below; every access the source performs is in range).
* `calculate_rms` returns `sqrt(sumSquares/len)`; the square root only flows
  into order comparisons against non-negative constants and into the real-
  valued decibel computation, so we carry the mean square (`rms²`) and compare
  squares (`sqrt m < c ↔ m < c²` for `m ≥ 0`, `c ≥ 0`; see the lemmas
  `energyGt_iff_sqrt_gt` and `sqrt_lt_hundredth_iff` below).
* Fallible code (Rust slice-index panics) is embedded with `Option`.
* The Hann windowing, the forward FFT (external crates `realfft`/`rustfft`)
  and the complex magnitude are not code of this repository; the magnitude
  spectrum of a frame is abstracted as a parameter
  `mag : (ℕ → ℚ) → List ℚ` applied to the frame's samples.  All onset
  theorems hold for every such `mag`, hence for the real FFT in particular.
-/

/-- A mono sample buffer: the `samples: &[f32]` argument of the analyzer
functions, embedded as a length plus an index function. -/
structure Buffer where
  len : ℕ
  x : ℕ → ℚ

/-- Linear sum `f lo + f (lo+1) + ... + f (lo+n-1)`: the loop accumulation
used by the source for its running sums. -/
def sumFromLin (f : ℕ → ℚ) (lo : ℕ) : ℕ → ℚ
  | 0 => 0
  | n + 1 => sumFromLin f lo n + f (lo + n)

/-- The same sum computed by balanced splitting, so that concrete instances
reduce inside the kernel with logarithmic (instead of linear) recursion
depth.  `fuel` only bounds the splitting depth; `sumFromSplit_eq_lin` proves
the value is exactly the source's loop sum `sumFromLin`. -/
def sumFromSplit (f : ℕ → ℚ) : ℕ → ℕ → ℕ → ℚ
  | 0, lo, n => sumFromLin f lo n
  | fuel + 1, lo, n =>
    if n ≤ 8 then sumFromLin f lo n
    else sumFromSplit f fuel lo (n / 2) + sumFromSplit f fuel (lo + n / 2) (n - n / 2)

/-- Sum `f 0 + f 1 + ... + f (n-1)`, the loop-accumulated sums of the source
(computed by splitting; see `sumTo_eq_lin`). -/
def sumTo (f : ℕ → ℚ) (n : ℕ) : ℚ := sumFromSplit f 64 0 n

theorem sumFromLin_add (f : ℕ → ℚ) (lo a b : ℕ) :
    sumFromLin f lo (a + b) = sumFromLin f lo a + sumFromLin f (lo + a) b := by
  induction b with
  | zero => simp [sumFromLin]
  | succ b ih =>
    rw [Nat.add_succ]
    simp only [sumFromLin, ih, Nat.add_assoc]
    ring

theorem sumFromSplit_eq_lin (f : ℕ → ℚ) :
    ∀ (fuel lo n : ℕ), sumFromSplit f fuel lo n = sumFromLin f lo n := by
  intro fuel
  induction fuel with
  | zero => intro lo n; rfl
  | succ fuel ih =>
    intro lo n
    show (if n ≤ 8 then _ else _) = _
    split
    · rfl
    · rw [ih, ih, ← sumFromLin_add]
      congr 1
      omega

/-- `sumTo` computes the linear loop sum of the source. -/
theorem sumTo_eq_lin (f : ℕ → ℚ) (n : ℕ) : sumTo f n = sumFromLin f 0 n :=
  sumFromSplit_eq_lin f 64 0 n

/-- Rust numeric cast `as usize` of a (here: rational-valued) float:
truncation toward zero, saturating at zero from below.  For `0 ≤ q` this is
`⌊q⌋`. -/
def ratToUsize (q : ℚ) : ℕ := (⌊q⌋).toNat

-- ============================================================================
-- YIN pitch detection (analyzer.rs lines 14-189)
-- ============================================================================

/-- `YinParams` (analyzer.rs lines 25-31). -/
structure YinParams where
  threshold : ℚ
  min_frequency : ℚ
  max_frequency : ℚ
  sample_rate : ℕ

/-- `YinParams::default()` (analyzer.rs lines 33-42): threshold 0.1,
min 27.5 Hz (A0), max 4186 Hz (C8), sample rate 44100. -/
def defaultYinParams : YinParams :=
  { threshold := 1/10, min_frequency := 55/2, max_frequency := 4186, sample_rate := 44100 }

/-- `PitchResult` (analyzer.rs lines 15-22).  The source also stores
`midi_note` and `cents_offset`, which are pure functions of `frequency`
(via `log2`), and `rms_level`; we carry the square of `rms_level` in
`rms_sq` (see module comment) and obtain the others through the real-valued
functions below, keeping the record computable. -/
structure PitchResult where
  frequency : ℚ
  confidence : ℚ
  rms_sq : ℚ
deriving DecidableEq

/-- Square of `calculate_rms` (analyzer.rs lines 160-167): `0` for an empty
buffer, otherwise the mean of the squared samples, i.e. `rms²`. -/
def calculate_rms_sq (buf : Buffer) : ℚ :=
  if buf.len = 0 then 0
  else sumTo (fun j => buf.x j * buf.x j) buf.len / buf.len

/-- `min_lag` derived in `detect_pitch_yin` (analyzer.rs line 77):
`(sample_rate as f32 / max_frequency) as usize`. -/
def yinMinLag (p : YinParams) : ℕ := ratToUsize ((p.sample_rate : ℚ) / p.max_frequency)

/-- `max_lag` derived in `detect_pitch_yin` (analyzer.rs line 78):
`(sample_rate as f32 / min_frequency) as usize`. -/
def yinMaxLag (p : YinParams) : ℕ := ratToUsize ((p.sample_rate : ℚ) / p.min_frequency)

/-- `half_buffer` in `detect_pitch_yin` (analyzer.rs lines 79-80):
half of `min(len, 8192)`. -/
def yinHalfBuffer (buf : Buffer) : ℕ := min buf.len 8192 / 2

/-- Step 1 of YIN, the difference function (analyzer.rs lines 87-95):
`d(τ) = Σ_{j<half} (x[j] - x[j+τ])²`.  The source fills an array
`diff[0..half)`; entry `τ` is this value. -/
def yinDiff (buf : Buffer) (half : ℕ) (tau : ℕ) : ℚ :=
  sumTo (fun j => (buf.x j - buf.x (j + tau)) * (buf.x j - buf.x (j + tau))) half

/-- The running sum `Σ_{k=1}^{τ} diff[k]` maintained by the loop of step 2
(analyzer.rs lines 101-103). -/
def yinRunningSum (buf : Buffer) (half : ℕ) (tau : ℕ) : ℚ :=
  sumTo (fun k => yinDiff buf half (k + 1)) tau

/-- Step 2 of YIN, the cumulative mean normalized difference (analyzer.rs
lines 97-107): `cmnd[0] = 1`; for `τ ≥ 1` the loop writes
`diff[τ] / (running_sum / τ)` when the running sum is positive and leaves
the initial value `1` otherwise.  The array entry depends only on `τ` and
the prefix sum, so it is embedded pointwise. -/
def yinCmnd (buf : Buffer) (half : ℕ) (tau : ℕ) : ℚ :=
  if tau = 0 then 1
  else if 0 < yinRunningSum buf half tau then
    yinDiff buf half tau / (yinRunningSum buf half tau / (tau : ℚ))
  else 1

/-- The inner descent of step 3 (analyzer.rs lines 114-116):
`while tau + 1 < max_lag && cmnd[tau+1] < cmnd[tau] { tau += 1 }`.
`fuel` bounds the iteration count; every call below supplies enough. -/
def yinDescend (cm : ℕ → ℚ) (maxLag : ℕ) : ℕ → ℕ → ℕ
  | 0, tau => tau
  | fuel + 1, tau =>
    if tau + 1 < maxLag ∧ cm (tau + 1) < cm tau then yinDescend cm maxLag fuel (tau + 1)
    else tau

/-- The outer absolute-threshold search of step 3 (analyzer.rs lines
109-120): scan `τ` upward from `min_lag`; at the first `τ < max_lag` with
`cmnd[τ] < threshold` descend to the local minimum and stop; if the scan
reaches `max_lag` the final `τ` is `max_lag`. -/
def yinSearch (cm : ℕ → ℚ) (thr : ℚ) (maxLag : ℕ) : ℕ → ℕ → ℕ
  | 0, tau => tau
  | fuel + 1, tau =>
    if tau < maxLag then
      if cm tau < thr then yinDescend cm maxLag (maxLag + 1) tau
      else yinSearch cm thr maxLag fuel (tau + 1)
    else tau

/-- `detect_pitch_yin` (analyzer.rs lines 63-157).  Guards: buffer shorter
than 2048 samples, RMS below 0.01 (compared on squares: `rms² < 0.0001`),
and `max_lag ≥ half_buffer`.  Then the threshold search on the CMND, the
no-pitch check, parabolic interpolation (skipped at edge `τ`), and the
frequency/confidence computation.  `midi_note`/`cents_offset` of the source
are functions of the returned frequency (see module comment). -/
def detect_pitch_yin (samples : Buffer) (params : YinParams) : Option PitchResult :=
  if samples.len < 2048 then none
  else
    let rmsSq := calculate_rms_sq samples
    if rmsSq < 1/10000 then none
    else
      let minLag := yinMinLag params
      let maxLag := yinMaxLag params
      let half := yinHalfBuffer samples
      if maxLag ≥ half then none
      else
        let cm := yinCmnd samples half
        let tau := yinSearch cm params.threshold maxLag (maxLag + 1) minLag
        if tau ≥ maxLag ∨ cm tau ≥ params.threshold then none
        else
          let better_tau :=
            if 0 < tau ∧ tau < half - 1 then
              (tau : ℚ) +
                (cm (tau + 1) - cm (tau - 1)) /
                  (2 * (2 * cm tau - cm (tau - 1) - cm (tau + 1)))
            else (tau : ℚ)
          let frequency := (params.sample_rate : ℚ) / better_tau
          some { frequency := frequency
                 confidence := 1 - min (cm tau) 1
                 rms_sq := rmsSq }

-- ============================================================================
-- Concrete input refuting "frequency > 0" (used for claim C1)
-- ============================================================================

/-- A 2048-sample buffer: a period-4 pattern `1,0,-1,0` on indices 0-11, two
isolated `1`-samples at indices 20 and 24, zero elsewhere.  All samples lie
in `[-1, 1]`.  Its YIN difference function at lags 1..4 is `(15, 25, 14, 4)`,
so `cmnd` at lags 2,3,4 is `5/4, 7/9, 8/29` and the parabolic interpolation
at `τ = 3` overshoots to `better_tau = -831/62 < 0`. -/
def cexSamples : ℕ → ℚ := fun j =>
  if j < 12 then (if j % 4 = 0 then 1 else if j % 4 = 2 then -1 else 0)
  else if j = 20 then 1
  else if j = 24 then 1
  else 0

/-- The counterexample buffer for the pitch detector. -/
def cexBuf : Buffer := { len := 2048, x := cexSamples }

/-- Spec-conforming YIN parameters (threshold ∈ (0,1], `0 < minF < maxF ≤`
Nyquist) giving `min_lag = 3` and `max_lag = 4`. -/
def cexParams : YinParams :=
  { threshold := 4/5, min_frequency := 11025, max_frequency := 14700, sample_rate := 44100 }

theorem cex_minLag : yinMinLag cexParams = 3 := by with_unfolding_all decide

theorem cex_maxLag : yinMaxLag cexParams = 4 := by with_unfolding_all decide

theorem cex_half : yinHalfBuffer cexBuf = 1024 := by with_unfolding_all decide

set_option maxRecDepth 40000 in
theorem cex_rms : calculate_rms_sq cexBuf = 1/256 := by with_unfolding_all decide

set_option maxRecDepth 40000 in
theorem cex_cmnd2 : yinCmnd cexBuf 1024 2 = 5/4 := by with_unfolding_all decide

set_option maxRecDepth 40000 in
theorem cex_cmnd3 : yinCmnd cexBuf 1024 3 = 7/9 := by with_unfolding_all decide

set_option maxRecDepth 40000 in
theorem cex_cmnd4 : yinCmnd cexBuf 1024 4 = 8/29 := by with_unfolding_all decide

theorem cex_search : yinSearch (yinCmnd cexBuf 1024) (4/5) 4 5 3 = 3 := by
  show (if 3 < 4 then
      if yinCmnd cexBuf 1024 3 < 4/5 then yinDescend (yinCmnd cexBuf 1024) 4 5 3
      else yinSearch (yinCmnd cexBuf 1024) (4/5) 4 4 4
    else 3) = 3
  rw [if_pos (by norm_num), if_pos (by rw [cex_cmnd3]; norm_num)]
  show (if 3 + 1 < 4 ∧ _ then _ else 3) = 3
  rw [if_neg (by simp)]

/-- Evaluation of the pitch detector at the counterexample input: the result
is `Some`, with a negative frequency. -/
theorem cex_detect :
    detect_pitch_yin cexBuf cexParams =
      some { frequency := -911400/277, confidence := 2/9, rms_sq := 1/256 } := by
  unfold detect_pitch_yin
  simp only [show cexBuf.len = 2048 from rfl, show cexParams.threshold = 4/5 from rfl,
    show cexParams.sample_rate = 44100 from rfl, cex_rms, cex_maxLag, cex_half, cex_minLag,
    show (4 + 1 : ℕ) = 5 from rfl, cex_search, show (3 + 1 : ℕ) = 4 from rfl,
    show (3 - 1 : ℕ) = 2 from rfl, cex_cmnd2, cex_cmnd3, cex_cmnd4,
    min_eq_left (show (7 : ℚ)/9 ≤ 1 by norm_num)]
  norm_num

/-- The square-comparison form of the source's silence gate is faithful:
for any mean square `q`, `sqrt q < 0.01` holds exactly when `q < 0.0001`. -/
theorem sqrt_lt_hundredth_iff (q : ℚ) :
    Real.sqrt (q : ℝ) < 1/100 ↔ q < 1/10000 := by
  rw [show (1/100 : ℝ) = ((1/100 : ℚ) : ℝ) by norm_num]
  rw [Real.sqrt_lt' (by norm_num)]
  constructor
  · intro h
    have : (q : ℝ) < ((1/10000 : ℚ) : ℝ) := by
      calc (q : ℝ) < ((1/100 : ℚ) : ℝ) ^ 2 := h
      _ = ((1/10000 : ℚ) : ℝ) := by norm_num
    exact_mod_cast this
  · intro h
    calc (q : ℝ) < ((1/10000 : ℚ) : ℝ) := by exact_mod_cast h
    _ = ((1/100 : ℚ) : ℝ) ^ 2 := by norm_num

/-- Claim C1 is violated by the code: at the concrete buffer `cexBuf` with
the spec-conforming parameters `cexParams`, `detect_pitch_yin` returns a
result whose frequency is negative (the parabolic interpolation at the
chosen lag overshoots to a negative `better_tau`), so `frequencyHz > 0`
fails, and in the source `log2` is then taken of a negative number. -/
theorem claim_C1_code_bug :
    ∃ r, detect_pitch_yin cexBuf cexParams = some r ∧ r.frequency < 0 :=
  ⟨_, cex_detect, by norm_num⟩

/-- Claim C3: `detect_pitch_yin` returns `none` (and never raises) whenever
the buffer has fewer than 2048 samples, or the RMS of the whole buffer is
below 0.01, or the derived `max_lag` is at least half the analysis window
size `min(len, 8192) / 2`. -/
theorem claim_C3_guards (samples : Buffer) (params : YinParams)
    (h : samples.len < 2048 ∨ Real.sqrt (calculate_rms_sq samples : ℝ) < 1/100 ∨
      yinHalfBuffer samples ≤ yinMaxLag params) :
    detect_pitch_yin samples params = none := by
  rcases h with h | h | h
  · unfold detect_pitch_yin
    rw [if_pos h]
  · rw [sqrt_lt_hundredth_iff] at h
    simp only [detect_pitch_yin]
    split_ifs <;> rfl
  · simp only [detect_pitch_yin]
    split_ifs <;> rfl

/-- A buffer of 100 constant samples, below the 2048-sample minimum. -/
def smallBuf : Buffer := { len := 100, x := fun _ => 1/2 }

/-- Witness for claim C3 at a concrete input: a 100-sample buffer trips the
length guard and the detector returns `none`. -/
theorem claim_C3_witness :
    (smallBuf.len < 2048 ∨ Real.sqrt (calculate_rms_sq smallBuf : ℝ) < 1/100 ∨
      yinHalfBuffer smallBuf ≤ yinMaxLag defaultYinParams) ∧
    detect_pitch_yin smallBuf defaultYinParams = none :=
  ⟨Or.inl (by norm_num [smallBuf]),
   claim_C3_guards smallBuf defaultYinParams (Or.inl (by norm_num [smallBuf]))⟩

/-- Claim C7 as stated is false: with the default parameters the code's
`min_lag` is `(44100/4186) as usize = 10`, while the claimed
`round(sampleRate / maxFrequency)` is `round(10.535...) = 11`. -/
theorem claim_C7_counterexample :
    yinMinLag defaultYinParams = 10 ∧
    round ((defaultYinParams.sample_rate : ℚ) / defaultYinParams.max_frequency) = 11 := by
  constructor
  · with_unfolding_all decide
  · with_unfolding_all decide

/-- Claim C7 amended: the lag bounds are obtained by truncation toward zero
(`as usize`), i.e. by `⌊·⌋` for the positive quotients, not by rounding. -/
theorem claim_C7_amended (p : YinParams) :
    (0 < p.max_frequency → (yinMinLag p : ℤ) = ⌊(p.sample_rate : ℚ) / p.max_frequency⌋) ∧
    (0 < p.min_frequency → (yinMaxLag p : ℤ) = ⌊(p.sample_rate : ℚ) / p.min_frequency⌋) := by
  constructor
  · intro hf
    exact Int.toNat_of_nonneg (Int.floor_nonneg.mpr (by positivity))
  · intro hf
    exact Int.toNat_of_nonneg (Int.floor_nonneg.mpr (by positivity))

/-- Witness for (amended) claim C7 at the default parameters. -/
theorem claim_C7_witness :
    0 < defaultYinParams.max_frequency ∧
    (yinMinLag defaultYinParams : ℤ) =
      ⌊(defaultYinParams.sample_rate : ℚ) / defaultYinParams.max_frequency⌋ :=
  ⟨by norm_num [defaultYinParams],
   (claim_C7_amended defaultYinParams).1 (by norm_num [defaultYinParams])⟩

-- ============================================================================
-- Dynamics: dB to MIDI velocity (analyzer.rs lines 686-693)
-- ============================================================================

/-- `db_to_velocity` (analyzer.rs lines 689-693): `(db + 60)/60`, clamped to
`[0, 1]`, times 127, cast `as u8` (truncation). -/
def db_to_velocity (db : ℚ) : ℕ := ratToUsize (min (max ((db + 60) / 60) 0) 1 * 127)

/-- Modelled from the spec: the claimed conversion
`round(clamp((db + 60)/60, 0, 1) * 127)` (the spec/claim use rounding where
the code truncates). -/
def velocityRoundSpec (db : ℚ) : ℤ := round (min (max ((db + 60) / 60) 0) 1 * 127)

/-- Claim C4 as stated is false: at `db = -30` the code truncates `63.5`
to velocity 63, while the claimed formula rounds it to 64. -/
theorem claim_C4_counterexample :
    db_to_velocity (-30) = 63 ∧ velocityRoundSpec (-30) = 64 := by
  constructor
  · with_unfolding_all decide
  · with_unfolding_all decide

/-- Claim C4 amended: the conversion equals
`⌊clamp((db + 60)/60, 0, 1) * 127⌋` (truncation, not rounding); it still
maps 0 dB to 127, -60 dB to 0, -30 dB to 63 (within 1 of 63), and clamps
out-of-range inputs (10 dB, -100 dB) to the boundary velocities. -/
theorem claim_C4_amended :
    (∀ db : ℚ, (db_to_velocity db : ℤ) = ⌊min (max ((db + 60) / 60) 0) 1 * 127⌋) ∧
    db_to_velocity 0 = 127 ∧ db_to_velocity (-60) = 0 ∧ db_to_velocity (-30) = 63 ∧
    db_to_velocity 10 = 127 ∧ db_to_velocity (-100) = 0 := by
  refine ⟨fun db => ?_, ?_, ?_, ?_, ?_, ?_⟩
  · have h0 : (0 : ℚ) ≤ min (max ((db + 60) / 60) 0) 1 * 127 := by
      have : (0 : ℚ) ≤ min (max ((db + 60) / 60) 0) 1 :=
        le_min (le_max_right _ _) zero_le_one
      positivity
    exact Int.toNat_of_nonneg (Int.floor_nonneg.mpr h0)
  · with_unfolding_all decide
  · with_unfolding_all decide
  · with_unfolding_all decide
  · with_unfolding_all decide
  · with_unfolding_all decide

-- ============================================================================
-- Onset detection (analyzer.rs lines 306-513)
-- ============================================================================

/-- `OnsetEvent` (analyzer.rs lines 311-317). -/
structure OnsetEvent where
  timestamp : ℚ
  sample_index : ℕ
  strength : ℚ
  confidence : ℚ
deriving DecidableEq

/-- `OnsetParams` (analyzer.rs lines 320-328). -/
structure OnsetParams where
  hop_size : ℕ
  fft_size : ℕ
  threshold : ℚ
  min_inter_onset : ℚ
  energy_threshold : ℚ
  sample_rate : ℕ

/-- `OnsetParams::default()` (analyzer.rs lines 330-341). -/
def defaultOnsetParams : OnsetParams :=
  { hop_size := 256, fft_size := 512, threshold := 3/10, min_inter_onset := 1/20,
    energy_threshold := 1/100, sample_rate := 44100 }

/-- `compute_stft` (analyzer.rs lines 406-439), with the Hann windowing, the
forward FFT (external crates) and the complex magnitudes abstracted into the
parameter `mag`, applied to each frame's samples.  The frame grid is the
source's: `num_frames = (len - fft_size)/hop_size + 1` frames starting at
`frame_idx * hop_size` (the source's early `break` at `end > len` never
fires for these indices).  Entry `i` of the result is the magnitude
spectrum of frame `i`. -/
def compute_stft (buf : Buffer) (fft_size hop_size : ℕ) (mag : (ℕ → ℚ) → List ℚ) :
    List (List ℚ) :=
  (List.range ((buf.len - fft_size) / hop_size + 1)).map
    (fun frame_idx => mag (fun j => buf.x (frame_idx * hop_size + j)))

/-- One entry of `spectral_flux` (analyzer.rs lines 449-461): the half-wave
rectified sum of the positive magnitude increases from `prev` to `curr`
(the source iterates `k` over `frames[i].len()`). -/
def fluxOf (prev curr : List ℚ) : ℚ :=
  sumTo (fun k =>
    if 0 < curr.getD k 0 - prev.getD k 0 then curr.getD k 0 - prev.getD k 0 else 0)
    curr.length

/-- `spectral_flux` (analyzer.rs lines 442-465): empty for fewer than two
frames, otherwise entry `i` compares frame `i+1` against frame `i`
(the source pushes one value per `i in 1..frames.len()`). -/
def spectral_flux (frames : List (List ℚ)) : List ℚ :=
  if frames.length < 2 then []
  else (List.range (frames.length - 1)).map
    (fun i => fluxOf (frames.getD i []) (frames.getD (i + 1) []))

/-- `energy_envelope` (analyzer.rs lines 468-485), carried as the mean square
of each hop-sized frame (the source stores its square root; see the module
comment and `energyGt_iff_sqrt_gt`). -/
def energy_envelope_sq (buf : Buffer) (hop_size : ℕ) : List ℚ :=
  (List.range (buf.len / hop_size)).map (fun frame_idx =>
    sumTo (fun j => buf.x (frame_idx * hop_size + j) * buf.x (frame_idx * hop_size + j))
      (min (frame_idx * hop_size + hop_size) buf.len - frame_idx * hop_size) /
      ((min (frame_idx * hop_size + hop_size) buf.len - frame_idx * hop_size : ℕ) : ℚ))

/-- The source's comparison `energy[i] > threshold`, where `energy[i]` is the
square root of the carried mean square `msq`: equivalent to
`thr < 0 ∨ thr² < msq` (see `energyGt_iff_sqrt_gt`). -/
def energyGt (msq thr : ℚ) : Prop := thr < 0 ∨ thr * thr < msq

instance energyGt.decidable (m t : ℚ) : Decidable (energyGt m t) :=
  inferInstanceAs (Decidable (_ ∨ _))

/-- Faithfulness of `energyGt`: for a non-negative mean square it is exactly
the source's `sqrt msq > thr`. -/
theorem energyGt_iff_sqrt_gt (m t : ℚ) :
    energyGt m t ↔ (t : ℝ) < Real.sqrt (m : ℝ) := by
  unfold energyGt
  rcases lt_or_le t 0 with ht | ht
  · simp only [ht, true_or, true_iff]
    calc (t : ℝ) < 0 := by exact_mod_cast ht
    _ ≤ Real.sqrt (m : ℝ) := Real.sqrt_nonneg _
  · have ht' : ¬ t < 0 := not_lt.mpr ht
    simp only [ht', false_or]
    rw [show ((t : ℝ) < Real.sqrt (m : ℝ)) ↔ ((t:ℝ)^2 < (m:ℝ)) from
      Real.lt_sqrt (by exact_mod_cast ht)]
    rw [sq]
    constructor
    · intro h; exact_mod_cast h
    · intro h; exact_mod_cast h

/-- `calculate_onset_confidence` (analyzer.rs lines 498-513): the local
maximum of the flux over the slice `[index - 10, min(index + 10, len))`
(saturating at 0 on the left, *exclusive* at `index + 10` on the right),
folded with `max` from 0; the confidence is `min(value/localMax, 1)` when
that maximum is positive and 0 otherwise. -/
def calculate_onset_confidence (value : ℚ) (flux : List ℚ) (index : ℕ) : ℚ :=
  let start := index - 10
  let stop := min (index + 10) flux.length
  let local_max := ((flux.drop start).take (stop - start)).foldl max 0
  if 0 < local_max then min (value / local_max) 1 else 0

/-- `hop_time` in `detect_onsets` (analyzer.rs line 374). -/
def hopTime (p : OnsetParams) : ℚ := (p.hop_size : ℚ) / (p.sample_rate : ℚ)

/-- The event pushed by `detect_onsets` for flux index `i` (analyzer.rs
lines 383-395). -/
def mkOnset (p : OnsetParams) (flux : List ℚ) (i : ℕ) : OnsetEvent :=
  { timestamp := (i : ℚ) * hopTime p
    sample_index := i * p.hop_size
    strength := flux.getD i 0
    confidence := calculate_onset_confidence (flux.getD i 0) flux i }

/-- The minimum-inter-onset check (analyzer.rs lines 387-388):
`onsets.is_empty() || timestamp - onsets.last().timestamp >= min_inter_onset`. -/
def onsetGapOk (p : OnsetParams) (acc : List OnsetEvent) (t : ℚ) : Bool :=
  match acc.getLast? with
  | none => true
  | some last => decide (p.min_inter_onset ≤ t - last.timestamp)

/-- One iteration of the peak-picking loop of `detect_onsets` (analyzer.rs
lines 376-400): strict local maximum of the flux, flux threshold, energy
gate, then the minimum-inter-onset filter; rejected candidates leave the
accumulated list unchanged. -/
def onsetStep (p : OnsetParams) (flux energySq : List ℚ) (acc : List OnsetEvent) (i : ℕ) :
    List OnsetEvent :=
  if flux.getD (i - 1) 0 < flux.getD i 0 ∧ flux.getD (i + 1) 0 < flux.getD i 0 then
    if p.threshold < flux.getD i 0 then
      if i < energySq.length ∧ energyGt (energySq.getD i 0) p.energy_threshold then
        if onsetGapOk p acc ((i : ℚ) * hopTime p) then acc ++ [mkOnset p flux i]
        else acc
      else acc
    else acc
  else acc

/-- The spectral flux sequence used by `detect_onsets`. -/
def onsetFlux (buf : Buffer) (p : OnsetParams) (mag : (ℕ → ℚ) → List ℚ) : List ℚ :=
  spectral_flux (compute_stft buf p.fft_size p.hop_size mag)

/-- The energy envelope (as mean squares) used by `detect_onsets`. -/
def onsetEnergySq (buf : Buffer) (p : OnsetParams) : List ℚ :=
  energy_envelope_sq buf p.hop_size

/-- `detect_onsets` (analyzer.rs lines 358-403): empty for a buffer shorter
than `fft_size`, otherwise the peak-picking loop over the interior flux
indices `1 ≤ i < flux.len() - 1` (`List.range' 1 n` is `[1, ..., n]`). -/
def detect_onsets (buf : Buffer) (p : OnsetParams) (mag : (ℕ → ℚ) → List ℚ) :
    List OnsetEvent :=
  if buf.len < p.fft_size then []
  else
    (List.range' 1 ((onsetFlux buf p mag).length - 1 - 1)).foldl
      (onsetStep p (onsetFlux buf p mag) (onsetEnergySq buf p)) []

/-- The acceptance condition of the peak-picking loop at flux index `i`
(everything except the inter-onset filter). -/
def onsetCond (p : OnsetParams) (flux energySq : List ℚ) (i : ℕ) : Prop :=
  flux.getD (i - 1) 0 < flux.getD i 0 ∧ flux.getD (i + 1) 0 < flux.getD i 0 ∧
  p.threshold < flux.getD i 0 ∧ i < energySq.length ∧
  energyGt (energySq.getD i 0) p.energy_threshold

/-- Each loop iteration either keeps the list or, when the acceptance
condition and the inter-onset filter hold, appends the event for `i`. -/
theorem onsetStep_eq_or (p : OnsetParams) (flux energySq : List ℚ)
    (acc : List OnsetEvent) (i : ℕ) :
    onsetStep p flux energySq acc i = acc ∨
    (onsetCond p flux energySq i ∧ onsetGapOk p acc ((i : ℚ) * hopTime p) = true ∧
      onsetStep p flux energySq acc i = acc ++ [mkOnset p flux i]) := by
  unfold onsetStep
  split_ifs with h1 h2 h3 h4
  · exact Or.inr ⟨⟨h1.1, h1.2, h2, h3.1, h3.2⟩, h4, rfl⟩
  · exact Or.inl rfl
  · exact Or.inl rfl
  · exact Or.inl rfl
  · exact Or.inl rfl

/-- Every event produced by folding the peak-picking step over an index list
is either an initial event or the event of some qualifying index of the
list. -/
theorem onsetFold_mem (p : OnsetParams) (flux energySq : List ℚ) :
    ∀ (l : List ℕ) (acc : List OnsetEvent) (e : OnsetEvent),
      e ∈ l.foldl (onsetStep p flux energySq) acc →
      e ∈ acc ∨ ∃ i ∈ l, onsetCond p flux energySq i ∧ e = mkOnset p flux i := by
  intro l
  induction l with
  | nil => intro acc e he; exact Or.inl he
  | cons a l ih =>
    intro acc e he
    rw [List.foldl_cons] at he
    rcases ih (onsetStep p flux energySq acc a) e he with hacc | ⟨i, hi, hc, he'⟩
    · rcases onsetStep_eq_or p flux energySq acc a with heq | ⟨hc, _, heq⟩
      · rw [heq] at hacc; exact Or.inl hacc
      · rw [heq] at hacc
        rcases List.mem_append.mp hacc with h | h
        · exact Or.inl h
        · exact Or.inr ⟨a, List.mem_cons_self a l, hc, List.mem_singleton.mp h⟩
    · exact Or.inr ⟨i, List.mem_cons_of_mem a hi, hc, he'⟩

/-- The pairwise ordering of an emitted onset list: strictly increasing
timestamps, gaps of at least the minimum inter-onset interval, and strictly
increasing sample indices. -/
def onsetOrd (p : OnsetParams) (a b : OnsetEvent) : Prop :=
  a.timestamp < b.timestamp ∧ p.min_inter_onset ≤ b.timestamp - a.timestamp ∧
  a.sample_index < b.sample_index

/-- Folding the peak-picking step over a strictly increasing index list
preserves the ordering invariant: the result list is a chain for
`onsetOrd`, provided every initial event stems from an index below the
list. -/
theorem onsetFold_chain (p : OnsetParams) (flux energySq : List ℚ)
    (hhop : 0 < p.hop_size) (hsr : 0 < p.sample_rate) :
    ∀ (l : List ℕ), l.Pairwise (· < ·) →
      ∀ (acc : List OnsetEvent), List.Chain' (onsetOrd p) acc →
        (∀ e ∈ acc, ∃ j, e = mkOnset p flux j ∧ ∀ i ∈ l, j < i) →
        List.Chain' (onsetOrd p) (l.foldl (onsetStep p flux energySq) acc) := by
  have htpos : 0 < hopTime p := by
    unfold hopTime
    have h1 : (0 : ℚ) < (p.hop_size : ℚ) := by exact_mod_cast hhop
    have h2 : (0 : ℚ) < (p.sample_rate : ℚ) := by exact_mod_cast hsr
    positivity
  intro l
  induction l with
  | nil => intro _ acc hacc _; exact hacc
  | cons a l ih =>
    intro hl acc hacc hsep
    rw [List.foldl_cons]
    rcases List.pairwise_cons.mp hl with ⟨ha, hl'⟩
    rcases onsetStep_eq_or p flux energySq acc a with heq | ⟨hc, hgap, heq⟩
    · rw [heq]
      exact ih hl' acc hacc (fun e he =>
        (hsep e he).imp (fun j hj => ⟨hj.1, fun i hi => hj.2 i (List.mem_cons_of_mem a hi)⟩))
    · rw [heq]
      refine ih hl' _ ?_ ?_
      · rw [List.chain'_append]
        refine ⟨hacc, List.chain'_singleton _, ?_⟩
        intro y hy z hz
        have hz' : z = mkOnset p flux a := (show mkOnset p flux a = z by simpa using hz).symm
        have hy' : y ∈ acc := List.mem_of_mem_getLast? hy
        rw [Option.mem_def] at hy
        rcases hsep y hy' with ⟨j, rfl, hj⟩
        have hja : j < a := hj a (List.mem_cons_self a l)
        have hts : (mkOnset p flux j).timestamp < (mkOnset p flux a).timestamp := by
          show (j : ℚ) * hopTime p < (a : ℚ) * hopTime p
          have : (j : ℚ) < (a : ℚ) := by exact_mod_cast hja
          exact mul_lt_mul_of_pos_right this htpos
        have hgap' : p.min_inter_onset ≤
            (mkOnset p flux a).timestamp - (mkOnset p flux j).timestamp := by
          unfold onsetGapOk at hgap
          rw [hy] at hgap
          exact of_decide_eq_true hgap
        have hidx : (mkOnset p flux j).sample_index < (mkOnset p flux a).sample_index := by
          show j * p.hop_size < a * p.hop_size
          exact (Nat.mul_lt_mul_right hhop).mpr hja
        rw [hz']
        exact ⟨hts, hgap', hidx⟩
      · intro e he
        rcases List.mem_append.mp he with h | h
        · rcases hsep e h with ⟨j, hj, hlt⟩
          refine ⟨j, hj, fun i hi => hlt i (List.mem_cons_of_mem a hi)⟩
        · refine ⟨a, List.mem_singleton.mp h, fun i hi => ?_⟩
          exact ha i hi

/-- Claim C2: for every buffer, configuration (with positive hop size and
sample rate) and magnitude spectrum, the onset list has strictly increasing
timestamps and consecutive gaps of at least `min_inter_onset`; candidates
failing the gap test are dropped (the fold step leaves the list unchanged),
never merged. -/
theorem claim_C2_onset_spacing (buf : Buffer) (p : OnsetParams) (mag : (ℕ → ℚ) → List ℚ)
    (hhop : 0 < p.hop_size) (hsr : 0 < p.sample_rate) :
    List.Chain' (fun a b => a.timestamp < b.timestamp ∧
      p.min_inter_onset ≤ b.timestamp - a.timestamp) (detect_onsets buf p mag) := by
  unfold detect_onsets
  split
  · exact List.chain'_nil
  · refine (onsetFold_chain p (onsetFlux buf p mag) (onsetEnergySq buf p) hhop hsr
      (List.range' 1 _) ?_ [] List.chain'_nil (by intro e he; simp at he)).imp ?_
    · exact List.pairwise_lt_range' 1 _
    · exact fun a b h => ⟨h.1, h.2.1⟩

/-- The buffer used by the onset witnesses: samples
`1/4, 1/4, 3/4, 1/4, 1/4, 1/4, 3/4, 1/4`, producing two flux spikes. -/
def wSamples : ℕ → ℚ := fun j =>
  if j = 2 ∨ j = 6 then 3/4 else if j < 8 then 1/4 else 0

/-- Witness buffer for the onset claims. -/
def wBuf : Buffer := { len := 8, x := wSamples }

/-- Witness onset parameters: one-sample hop and window, flux threshold 0.1,
minimum inter-onset interval 1 s at a (toy) sample rate of 4 Hz, so that the
two flux spikes at indices 1 and 5 are exactly 1 s apart. -/
def wParams : OnsetParams :=
  { hop_size := 1, fft_size := 1, threshold := 1/10, min_inter_onset := 1,
    energy_threshold := 1/100, sample_rate := 4 }

/-- A concrete instance of the abstract magnitude-spectrum parameter used by
the witnesses: a one-bin spectrum reading the frame's first sample. -/
def wMag : (ℕ → ℚ) → List ℚ := fun f => [f 0]

/-- The first onset event detected on the witness buffer. -/
def wOnset1 : OnsetEvent :=
  { timestamp := 1/4, sample_index := 1, strength := 1/2, confidence := 1 }

/-- The second onset event detected on the witness buffer. -/
def wOnset5 : OnsetEvent :=
  { timestamp := 5/4, sample_index := 5, strength := 1/2, confidence := 1 }

set_option maxRecDepth 40000 in
/-- Evaluation of the onset detector on the witness input. -/
theorem wOnsets_eval : detect_onsets wBuf wParams wMag = [wOnset1, wOnset5] := by
  with_unfolding_all rfl

/-- Witness for claim C2 at a concrete input (the detected list there has
two events, at timestamps 1/4 and 5/4). -/
theorem claim_C2_witness :
    0 < wParams.hop_size ∧ 0 < wParams.sample_rate ∧
    List.Chain' (fun a b => a.timestamp < b.timestamp ∧
      wParams.min_inter_onset ≤ b.timestamp - a.timestamp) (detect_onsets wBuf wParams wMag) :=
  ⟨by decide, by decide,
   claim_C2_onset_spacing wBuf wParams wMag (by decide) (by decide)⟩

/-- Claim C9: every emitted onset stems from an interior flux index
`1 ≤ i < len(flux) - 1` at which the flux is a *strict* local maximum; in
particular an index whose flux equals a neighbour's is never emitted. -/
theorem claim_C9_strict_peaks (buf : Buffer) (p : OnsetParams) (mag : (ℕ → ℚ) → List ℚ)
    (e : OnsetEvent) (he : e ∈ detect_onsets buf p mag) :
    ∃ i, 1 ≤ i ∧ i + 1 < (onsetFlux buf p mag).length ∧
      (onsetFlux buf p mag).getD (i - 1) 0 < (onsetFlux buf p mag).getD i 0 ∧
      (onsetFlux buf p mag).getD (i + 1) 0 < (onsetFlux buf p mag).getD i 0 ∧
      e = mkOnset p (onsetFlux buf p mag) i := by
  unfold detect_onsets at he
  split at he
  · simp at he
  · rcases onsetFold_mem p _ _ _ _ _ he with h | ⟨i, hi, hc, he'⟩
    · simp at h
    · rw [List.mem_range'_1] at hi
      exact ⟨i, hi.1, by omega, hc.1, hc.2.1, he'⟩

/-- Witness for claim C9 at a concrete input. -/
theorem claim_C9_witness :
    wOnset1 ∈ detect_onsets wBuf wParams wMag ∧
    (∃ i, 1 ≤ i ∧ i + 1 < (onsetFlux wBuf wParams wMag).length ∧
      (onsetFlux wBuf wParams wMag).getD (i - 1) 0 < (onsetFlux wBuf wParams wMag).getD i 0 ∧
      (onsetFlux wBuf wParams wMag).getD (i + 1) 0 < (onsetFlux wBuf wParams wMag).getD i 0 ∧
      wOnset1 = mkOnset wParams (onsetFlux wBuf wParams wMag) i) :=
  ⟨by rw [wOnsets_eval]; exact List.mem_cons_self _ _,
   claim_C9_strict_peaks wBuf wParams wMag wOnset1
     (by rw [wOnsets_eval]; exact List.mem_cons_self _ _)⟩

/-- Modelled from the spec: claim C8's confidence formula, whose ±10-frame
window around `i` includes BOTH endpoints `i-10` and `i+10` when they exist
(the code's window instead stops one short of `i+10`). -/
def onsetConfidenceClaim (flux : List ℚ) (i : ℕ) : ℚ :=
  let start := i - 10
  let stop := min (i + 10 + 1) flux.length
  let local_max := ((flux.drop start).take (stop - start)).foldl max 0
  if 0 < local_max then min (flux.getD i 0 / local_max) 1 else 0

/-- A buffer whose flux is `0, 1/2, 0, ..., 0, 1` (length 12): the flux at
index 11 = 1 + 10 lies inside the claimed inclusive window around the
emitted index 1 but outside the code's window. -/
def c8Samples : ℕ → ℚ := fun j =>
  if j ≤ 1 then 1/4 else if j = 2 then 3/4 else if j = 12 then 1 else 0

/-- Counterexample buffer for claim C8. -/
def c8Buf : Buffer := { len := 13, x := c8Samples }

/-- Counterexample parameters for claim C8 (toy sample rate 4 Hz). -/
def c8Params : OnsetParams :=
  { hop_size := 1, fft_size := 1, threshold := 1/10, min_inter_onset := 1/20,
    energy_threshold := 1/100, sample_rate := 4 }

/-- The single onset detected on the C8 counterexample buffer. -/
def c8Onset : OnsetEvent :=
  { timestamp := 1/4, sample_index := 1, strength := 1/2, confidence := 1 }

set_option maxRecDepth 40000 in
/-- Evaluation of the onset detector on the C8 counterexample input. -/
theorem c8_eval : detect_onsets c8Buf c8Params wMag = [c8Onset] := by
  with_unfolding_all rfl

set_option maxRecDepth 40000 in
/-- Claim C8 as stated is false: the code emits the onset at flux index 1
with confidence 1 (its window `[0, 11)` has maximum 1/2), while the claimed
inclusive ±10 window contains the flux value 1 at index 11, giving 1/2. -/
theorem claim_C8_counterexample :
    detect_onsets c8Buf c8Params wMag = [c8Onset] ∧ c8Onset.confidence = 1 ∧
    onsetConfidenceClaim (onsetFlux c8Buf c8Params wMag) 1 = 1/2 := by
  refine ⟨c8_eval, ?_, ?_⟩ <;> with_unfolding_all rfl

/-- Claim C8 amended: the confidence of an onset emitted at flux index `i`
is `min(flux[i]/localMax, 1)` where `localMax` is the maximum flux over the
window `[i - 10, min(i + 10, len))` — including `i - 10` but *excluding*
`i + 10` — and 0 when that maximum is not positive. -/
theorem claim_C8_amended (buf : Buffer) (p : OnsetParams) (mag : (ℕ → ℚ) → List ℚ)
    (e : OnsetEvent) (he : e ∈ detect_onsets buf p mag) :
    ∃ i, e.sample_index = i * p.hop_size ∧
      e.confidence =
        (if 0 < (((onsetFlux buf p mag).drop (i - 10)).take
              (min (i + 10) (onsetFlux buf p mag).length - (i - 10))).foldl max 0
         then min ((onsetFlux buf p mag).getD i 0 /
              (((onsetFlux buf p mag).drop (i - 10)).take
                (min (i + 10) (onsetFlux buf p mag).length - (i - 10))).foldl max 0) 1
         else 0) := by
  unfold detect_onsets at he
  split at he
  · simp at he
  · rcases onsetFold_mem p _ _ _ _ _ he with h | ⟨i, _, _, he'⟩
    · simp at h
    · refine ⟨i, ?_, ?_⟩
      · rw [he']
        rfl
      · rw [he']
        rfl


set_option maxRecDepth 40000 in
/-- Witness for (amended) claim C8 at a concrete input. -/
theorem claim_C8_witness :
    c8Onset ∈ detect_onsets c8Buf c8Params wMag ∧
    (∃ i, c8Onset.sample_index = i * c8Params.hop_size ∧
      c8Onset.confidence =
        (if 0 < (((onsetFlux c8Buf c8Params wMag).drop (i - 10)).take
              (min (i + 10) (onsetFlux c8Buf c8Params wMag).length - (i - 10))).foldl max 0
         then min ((onsetFlux c8Buf c8Params wMag).getD i 0 /
              (((onsetFlux c8Buf c8Params wMag).drop (i - 10)).take
                (min (i + 10) (onsetFlux c8Buf c8Params wMag).length - (i - 10))).foldl max 0) 1
         else 0)) :=
  ⟨by rw [c8_eval]; exact List.mem_cons_self _ _,
   claim_C8_amended c8Buf c8Params wMag c8Onset
     (by rw [c8_eval]; exact List.mem_cons_self _ _)⟩

-- ============================================================================
-- Dynamics analysis (analyzer.rs lines 609-693)
-- ============================================================================

/-- `DynamicsEvent` (analyzer.rs lines 614-621), with `rms_level` carried as
its square `rms_sq` (see the module comment).  The source's remaining fields
are functions of it: `db_level = amplitude_to_db(sqrt rms_sq)`
(`dynDbLevel` below) and `midi_velocity = db_to_velocity(db_level)`;
carrying them directly would make the record non-computable (`log10`). -/
structure DynamicsEvent where
  timestamp : ℚ
  rms_sq : ℚ
  peak_level : ℚ
deriving DecidableEq

/-- `find_peak` (analyzer.rs lines 669-673): fold of `f32::max` over the
absolute sample values, starting from 0. -/
def find_peak (f : ℕ → ℚ) : ℕ → ℚ
  | 0 => 0
  | n + 1 => max (find_peak f n) |f n|

/-- The segment end used by `analyze_dynamics` for onset `i` (analyzer.rs
lines 642-646): the next onset's sample index, or the buffer length for the
last onset. -/
def segmentStop (buf : Buffer) (onsets : List OnsetEvent) (i : ℕ) : ℕ :=
  match onsets.get? (i + 1) with
  | some o => o.sample_index
  | none => buf.len

/-- Placeholder event for `List.getD`; every access below is in range. -/
def dummyOnset : OnsetEvent :=
  { timestamp := 0, sample_index := 0, strength := 0, confidence := 0 }

/-- One iteration of `analyze_dynamics` (analyzer.rs lines 639-663): slice
`audio[start..stop]` (Rust panics — modelled as `none` — unless
`start ≤ stop ≤ len`), then RMS, peak, and the event. -/
def analyze_segment (buf : Buffer) (o : OnsetEvent) (stop : ℕ) : Option DynamicsEvent :=
  if o.sample_index ≤ stop ∧ stop ≤ buf.len then
    some { timestamp := o.timestamp
           rms_sq := calculate_rms_sq
             { len := stop - o.sample_index, x := fun j => buf.x (o.sample_index + j) }
           peak_level := find_peak (fun j => buf.x (o.sample_index + j)) (stop - o.sample_index) }
  else none

/-- `analyze_dynamics` (analyzer.rs lines 632-666): one event per onset, in
onset order; `sample_rate` is accepted but (as in the source) unused.  The
`Option` is `none` exactly when some slice would panic in Rust. -/
def analyze_dynamics (buf : Buffer) (onsets : List OnsetEvent) (sample_rate : ℕ) :
    Option (List DynamicsEvent) :=
  (List.range onsets.length).mapM
    (fun i => analyze_segment buf (onsets.getD i dummyOnset) (segmentStop buf onsets i))

/-- `amplitude_to_db` (analyzer.rs lines 678-684): `-60` below the `1e-6`
silence floor, else `20·log10(amplitude)`. -/
noncomputable def amplitude_to_db (amplitude : ℝ) : ℝ :=
  if amplitude < 1/1000000 then -60 else 20 * Real.logb 10 amplitude

/-- The `db_level` field of a `DynamicsEvent` as the source computes it:
`amplitude_to_db` of the segment's RMS (the square root of the carried
mean square). -/
noncomputable def dynDbLevel (rmsSq : ℚ) : ℝ := amplitude_to_db (Real.sqrt (rmsSq : ℝ))

/-- Option-valued `mapM` over a list: if every element succeeds, the result
is the pointwise list of successes. -/
theorem mapM_option_spec {α β : Type} (f : α → Option β) (da : α) :
    ∀ (l : List α), (∀ a ∈ l, (f a).isSome) →
      ∃ ys, l.mapM f = some ys ∧ ys.length = l.length ∧
        ∀ k, k < l.length → ys.get? k = f (l.getD k da) := by
  intro l
  induction l with
  | nil => intro _; exact ⟨[], rfl, rfl, fun k hk => absurd hk (by simp)⟩
  | cons a l ih =>
    intro h
    rcases Option.isSome_iff_exists.mp (h a (List.mem_cons_self a l)) with ⟨b, hb⟩
    rcases ih (fun a' ha' => h a' (List.mem_cons_of_mem a ha')) with ⟨ys, hys, hlen, hget⟩
    refine ⟨b :: ys, ?_, by simpa using hlen, ?_⟩
    · rw [List.mapM_cons, hb, hys]
      rfl
    · intro k hk
      cases k with
      | zero => simpa using hb.symm
      | succ k => simpa using hget k (by simpa using hk)

/-- Claim C6 as stated ("for every onset list") is false: on a 1-sample
buffer and a 2-element onset list with decreasing sample indices the Rust
slice `audio[5..0]` panics (modelled `none`), so no per-onset event list is
returned. -/
theorem claim_C6_counterexample :
    (analyze_dynamics { len := 1, x := fun _ => 0 }
      [{ timestamp := 0, sample_index := 5, strength := 1, confidence := 1 },
       { timestamp := 1/2, sample_index := 0, strength := 1, confidence := 1 }] 4 = none) ∧
    ¬ ∃ evs, analyze_dynamics { len := 1, x := fun _ => 0 }
      [{ timestamp := 0, sample_index := 5, strength := 1, confidence := 1 },
       { timestamp := 1/2, sample_index := 0, strength := 1, confidence := 1 }] 4 =
        some evs ∧ evs.length = 2 := by
  constructor
  · with_unfolding_all rfl
  · rintro ⟨evs, hevs, -⟩
    rw [show analyze_dynamics { len := 1, x := fun _ => 0 }
      [{ timestamp := 0, sample_index := 5, strength := 1, confidence := 1 },
       { timestamp := 1/2, sample_index := 0, strength := 1, confidence := 1 }] 4 = none
      from by with_unfolding_all rfl] at hevs
    cases hevs

/-- For onset lists with nondecreasing, in-bounds sample indices,
`analyze_dynamics` succeeds and yields one event per onset, in order, over
the contiguous onset-delimited segments. -/
theorem analyze_dynamics_segments (buf : Buffer) (onsets : List OnsetEvent) (sr : ℕ)
    (hmono : List.Chain' (fun a b => a.sample_index ≤ b.sample_index) onsets)
    (hbound : ∀ e ∈ onsets, e.sample_index ≤ buf.len) :
    ∃ evs, analyze_dynamics buf onsets sr = some evs ∧ evs.length = onsets.length ∧
      ∀ k, k < onsets.length →
        evs.get? k = some
          { timestamp := (onsets.getD k dummyOnset).timestamp
            rms_sq := calculate_rms_sq
              { len := segmentStop buf onsets k - (onsets.getD k dummyOnset).sample_index
                x := fun j => buf.x ((onsets.getD k dummyOnset).sample_index + j) }
            peak_level := find_peak
              (fun j => buf.x ((onsets.getD k dummyOnset).sample_index + j))
              (segmentStop buf onsets k - (onsets.getD k dummyOnset).sample_index) } := by
  have hseg : ∀ k, k < onsets.length →
      (onsets.getD k dummyOnset).sample_index ≤ segmentStop buf onsets k ∧
      segmentStop buf onsets k ≤ buf.len := by
    intro k hk
    unfold segmentStop
    rcases h1 : onsets.get? (k + 1) with - | o
    · constructor
      · rw [List.getD_eq_getElem _ _ hk]
        exact hbound _ (List.getElem_mem hk)
      · exact le_refl _
    · rcases List.get?_eq_some.mp h1 with ⟨hlt, hoeq⟩
      constructor
      · have hch := List.chain'_iff_get.mp hmono k (by omega)
        rw [List.getD_eq_getElem _ _ hk, ← hoeq]
        simpa using hch
      · rw [← hoeq]
        exact hbound _ (List.get_mem onsets (k + 1) hlt)
  rcases mapM_option_spec
      (fun i => analyze_segment buf (onsets.getD i dummyOnset) (segmentStop buf onsets i)) 0
      (List.range onsets.length)
      (by
        intro a ha
        rw [List.mem_range] at ha
        rcases hseg a ha with ⟨h1, h2⟩
        show (analyze_segment buf (onsets.getD a dummyOnset) (segmentStop buf onsets a)).isSome
        unfold analyze_segment
        rw [if_pos ⟨h1, h2⟩]
        rfl) with ⟨ys, hys, hlen, hget⟩
  refine ⟨ys, hys, by simpa using hlen, ?_⟩
  intro k hk
  have hk' : k < (List.range onsets.length).length := by simpa using hk
  have hrange : (List.range onsets.length).getD k 0 = k := by
    rw [List.getD_eq_getElem _ _ hk']
    simp
  have hstep := hget k hk'
  rw [hrange] at hstep
  show ys.get? k = _
  rw [hstep]
  unfold analyze_segment
  rw [if_pos ⟨(hseg k hk).1, (hseg k hk).2⟩]

/-- Claim C6 amended: for every buffer and every onset list whose sample
indices are nondecreasing and within the buffer, `analyze_dynamics` returns
exactly one event per onset, in onset order, and event `k` is computed over
the contiguous segment from `onset[k].sample_index` to the next onset's
sample index (the buffer end for the last onset); on other onset lists the
Rust slicing panics (`none`, see the counterexample). -/
theorem claim_C6_amended (buf : Buffer) (onsets : List OnsetEvent) (sr : ℕ)
    (hmono : List.Chain' (fun a b => a.sample_index ≤ b.sample_index) onsets)
    (hbound : ∀ e ∈ onsets, e.sample_index ≤ buf.len) :
    ∃ evs, analyze_dynamics buf onsets sr = some evs ∧ evs.length = onsets.length ∧
      ∀ k, k < onsets.length →
        evs.get? k = some
          { timestamp := (onsets.getD k dummyOnset).timestamp
            rms_sq := calculate_rms_sq
              { len := segmentStop buf onsets k - (onsets.getD k dummyOnset).sample_index
                x := fun j => buf.x ((onsets.getD k dummyOnset).sample_index + j) }
            peak_level := find_peak
              (fun j => buf.x ((onsets.getD k dummyOnset).sample_index + j))
              (segmentStop buf onsets k - (onsets.getD k dummyOnset).sample_index) } :=
  analyze_dynamics_segments buf onsets sr hmono hbound

/-- The onset list for the C6 witness. -/
def c6Onsets : List OnsetEvent :=
  [{ timestamp := 0, sample_index := 0, strength := 1, confidence := 1 },
   { timestamp := 1/2, sample_index := 2, strength := 1, confidence := 1 }]

/-- The buffer for the C6 witness. -/
def c6Buf : Buffer := { len := 3, x := fun _ => 1/2 }

/-- Witness for (amended) claim C6 at a concrete input. -/
theorem claim_C6_witness :
    List.Chain' (fun a b => a.sample_index ≤ b.sample_index) c6Onsets ∧
    (∀ e ∈ c6Onsets, e.sample_index ≤ c6Buf.len) ∧
    (∃ evs, analyze_dynamics c6Buf c6Onsets 4 = some evs ∧ evs.length = c6Onsets.length ∧
      ∀ k, k < c6Onsets.length →
        evs.get? k = some
          { timestamp := (c6Onsets.getD k dummyOnset).timestamp
            rms_sq := calculate_rms_sq
              { len := segmentStop c6Buf c6Onsets k - (c6Onsets.getD k dummyOnset).sample_index
                x := fun j => c6Buf.x ((c6Onsets.getD k dummyOnset).sample_index + j) }
            peak_level := find_peak
              (fun j => c6Buf.x ((c6Onsets.getD k dummyOnset).sample_index + j))
              (segmentStop c6Buf c6Onsets k - (c6Onsets.getD k dummyOnset).sample_index) }) :=
  ⟨by simp [c6Onsets], by decide,
   claim_C6_amended c6Buf c6Onsets 4 (by simp [c6Onsets]) (by decide)⟩

/-- The buffer for the C5 counterexample: four samples of amplitude 1e-4,
all within the normalized range `[-1, 1]`.  Its single segment has RMS 1e-4,
which is at least the 1e-6 silence floor, so the decibel branch computes
`20·log10(1e-4) = -80`, below the claimed lower bound -60. -/
def quietBuf : Buffer := { len := 4, x := fun _ => 1/10000 }

/-- Claim C5 is violated by the code: the event produced on `quietBuf` (one
onset at sample 0) carries mean square 1e-8, i.e. RMS 1e-4, and the source's
decibel computation on it yields -80, outside `[-60, 0]` (contradicting the
field's own documentation "Decibels (-60 to 0 dB)").  The -60 floor applies
only below RMS 1e-6. -/
theorem claim_C5_code_bug :
    analyze_dynamics quietBuf
      [{ timestamp := 0, sample_index := 0, strength := 1, confidence := 1 }] 4 =
      some [{ timestamp := 0, rms_sq := 1/100000000, peak_level := 1/10000 }] ∧
    dynDbLevel (1/100000000) = -80 ∧ ((-80 : ℝ) < -60) := by
  refine ⟨by with_unfolding_all rfl, ?_, by norm_num⟩
  unfold dynDbLevel amplitude_to_db
  have hsq : Real.sqrt ((1/100000000 : ℚ) : ℝ) = 1/10000 := by
    rw [show (((1/100000000 : ℚ)) : ℝ) = (1/10000 : ℝ)^2 by norm_num]
    exact Real.sqrt_sq (by norm_num)
  rw [hsq, if_neg (by norm_num)]
  rw [show (1/10000 : ℝ) = ((10:ℝ)^(4:ℕ))⁻¹ by norm_num]
  rw [Real.logb_inv, Real.logb_pow, Real.logb_self_eq_one (by norm_num)]
  norm_num

/-- Characterization of membership in `detect_onsets`: every emitted event
is the event of a qualifying interior flux index. -/
theorem detect_onsets_mem (buf : Buffer) (p : OnsetParams) (mag : (ℕ → ℚ) → List ℚ)
    (e : OnsetEvent) (he : e ∈ detect_onsets buf p mag) :
    ∃ i, 1 ≤ i ∧ i + 1 < (onsetFlux buf p mag).length ∧
      onsetCond p (onsetFlux buf p mag) (onsetEnergySq buf p) i ∧
      e = mkOnset p (onsetFlux buf p mag) i := by
  unfold detect_onsets at he
  split at he
  · simp at he
  · rcases onsetFold_mem p _ _ _ _ _ he with h | ⟨i, hi, hc, he'⟩
    · simp at h
    · rw [List.mem_range'_1] at hi
      exact ⟨i, hi.1, by omega, hc, he'⟩

/-- Claim C10: every onset produced by `detect_onsets` has its sample index
within the buffer (the energy gate forces `i < len/hop`), sample indices
strictly increase, and therefore the composed pipeline
`analyze_dynamics (samples, detect_onsets samples, _)` never slices out of
bounds: it always returns `some` (no panic is reachable). -/
theorem claim_C10_composed (buf : Buffer) (p : OnsetParams) (mag : (ℕ → ℚ) → List ℚ)
    (sr : ℕ) (hhop : 0 < p.hop_size) (hsr : 0 < p.sample_rate) :
    (∀ e ∈ detect_onsets buf p mag, e.sample_index ≤ buf.len) ∧
    List.Chain' (fun a b => a.sample_index < b.sample_index) (detect_onsets buf p mag) ∧
    (analyze_dynamics buf (detect_onsets buf p mag) sr).isSome := by
  have hbound : ∀ e ∈ detect_onsets buf p mag, e.sample_index ≤ buf.len := by
    intro e he
    rcases detect_onsets_mem buf p mag e he with ⟨i, -, -, hc, rfl⟩
    have hlen : i < buf.len / p.hop_size := by
      have h := hc.2.2.2.1
      simpa [onsetEnergySq, energy_envelope_sq] using h
    show i * p.hop_size ≤ buf.len
    calc i * p.hop_size ≤ i * p.hop_size + p.hop_size := Nat.le_add_right _ _
    _ = (i + 1) * p.hop_size := by ring
    _ ≤ (buf.len / p.hop_size) * p.hop_size := Nat.mul_le_mul_right _ hlen
    _ ≤ buf.len := Nat.div_mul_le_self _ _
  have hchain : List.Chain' (fun a b => a.sample_index < b.sample_index)
      (detect_onsets buf p mag) := by
    unfold detect_onsets
    split
    · exact List.chain'_nil
    · exact (onsetFold_chain p _ _ hhop hsr (List.range' 1 _)
        (List.pairwise_lt_range' 1 _) [] List.chain'_nil (by intro e he; simp at he)).imp
        (fun a b h => h.2.2)
  refine ⟨hbound, hchain, ?_⟩
  rcases analyze_dynamics_segments buf (detect_onsets buf p mag) sr
      (hchain.imp (fun a b h => le_of_lt h)) hbound with ⟨evs, hevs, -, -⟩
  rw [hevs]
  rfl

/-- Witness for claim C10 at a concrete input (two onsets are detected and
analyzed there). -/
theorem claim_C10_witness :
    0 < wParams.hop_size ∧ 0 < wParams.sample_rate ∧
    ((∀ e ∈ detect_onsets wBuf wParams wMag, e.sample_index ≤ wBuf.len) ∧
     List.Chain' (fun a b => a.sample_index < b.sample_index) (detect_onsets wBuf wParams wMag) ∧
     (analyze_dynamics wBuf (detect_onsets wBuf wParams wMag) 4).isSome) :=
  ⟨by decide, by decide, claim_C10_composed wBuf wParams wMag 4 (by decide) (by decide)⟩
